import Mathlib

/-!
Verification of the slideshow playback engine of `src/pages/Practice.tsx`.

The JavaScript source is shallowly embedded:
* JS numbers appearing as array indices / counters are `Nat` (all the
  modelled arithmetic stays in the naturals; the one comparison that JS
  evaluates over signed values, `orderIndex === imageOrder.length - 1`,
  is embedded over `Int`).
* `Math.random()` is embedded as an ambient stream `rng : Nat → Nat` of
  arbitrary naturals; `Math.floor(Math.random() * n)` becomes `rng t % n`,
  which like the source produces a value in `[0, n)` whenever `n > 0`.
* The `while` loop of the sparse branch of `generateRandomOrder` has no
  termination bound in the source (it terminates with probability 1), so
  the embedding gives it explicit fuel and returns `Option`: `none` means
  the loop did not finish within the supplied fuel.
* The JS array used by the partial Fisher–Yates shuffle is embedded as a
  total function `Nat → Nat` (array-as-map); every index the source reads
  or writes is `< length`, so the embedding agrees with the source array
  on all accessed cells.
-/

namespace Framerate

/-- Source, `Practice.tsx` line 24: `const INTERVAL_MS = 10;`. -/
def INTERVAL_MS : Nat := 10

/-- Source line 267: `const MAX_RANDOM_LEN = 50;`. -/
def MAX_RANDOM_LEN : Nat := 50

/-- Source lines 274–275: one iteration of the partial Fisher–Yates loop.
`j = i + Math.floor(Math.random() * (length - i))` followed by the
simultaneous swap `[order[i], order[j]] = [order[j], order[i]]`,
on the array-as-function embedding. -/
def fyStep (rng : Nat → Nat) (length i : Nat) (order : Nat → Nat) : Nat → Nat :=
  fun x =>
    if x = i then order (i + rng i % (length - i))
    else if x = i + rng i % (length - i) then order i
    else order x

/-- Source line 273: the loop `for (let i = 0; i < numIndexes; i++)`;
`fyLoop rng length k order` is the array after the iterations
`i = 0, …, k-1` have run, starting from `order`. -/
def fyLoop (rng : Nat → Nat) (length : Nat) : Nat → (Nat → Nat) → Nat → Nat
  | 0, order => order
  | i + 1, order => fyStep rng length i (fyLoop rng length i order)

/-- Source line 283: `result.add(...)` on a JS `Set`, which keeps insertion
order and ignores elements already present. -/
def setAdd (result : List Nat) (x : Nat) : List Nat :=
  if x ∈ result then result else result ++ [x]

/-- Source lines 281–284: `while (result.size < numIndexes) {
result.add(Math.floor(Math.random() * length)); }`, with explicit fuel;
`t` indexes the random stream. -/
def sparseLoop (rng : Nat → Nat) (length numIndexes : Nat) :
    Nat → Nat → List Nat → Option (List Nat)
  | fuel, t, result =>
    if result.length < numIndexes then
      match fuel with
      | 0 => none
      | fuel + 1 => sparseLoop rng length numIndexes fuel (t + 1) (setAdd result (rng t % length))
    else
      some result

/-- Source lines 266–286, `generateRandomOrder(length)`.  The JS test
`numIndexes > length / 2` uses real division, which over integers is
`2 * numIndexes > length`.  The dense branch builds `[0..length)`,
runs the partial shuffle and returns `order.slice(0, numIndexes)`;
the sparse branch runs the sampling loop (with fuel, see above). -/
def generateRandomOrder (rng : Nat → Nat) (fuel length : Nat) : Option (List Nat) :=
  let numIndexes := min MAX_RANDOM_LEN length
  if 2 * numIndexes > length then
    some (((List.range length).map (fyLoop rng length numIndexes (fun i => i))).take numIndexes)
  else
    sparseLoop rng length numIndexes fuel 0 []

/-- The swap of the two points `i` and `j`, as a function on `Nat`. -/
def swapFun (i j : Nat) : Nat → Nat :=
  fun x => if x = i then j else if x = j then i else x

theorem swapFun_left (i j : Nat) : swapFun i j i = j := by
  unfold swapFun
  rw [if_pos rfl]

theorem swapFun_right (i j : Nat) : swapFun i j j = i := by
  unfold swapFun
  by_cases h : j = i
  · rw [if_pos h, h]
  · rw [if_neg h, if_pos rfl]

theorem swapFun_other (i j x : Nat) (hxi : x ≠ i) (hxj : x ≠ j) : swapFun i j x = x := by
  unfold swapFun
  rw [if_neg hxi, if_neg hxj]

theorem swapFun_involutive (i j : Nat) : Function.Involutive (swapFun i j) := by
  intro x
  by_cases hxi : x = i
  · rw [hxi, swapFun_left, swapFun_right]
  · by_cases hxj : x = j
    · rw [hxj, swapFun_right, swapFun_left]
    · rw [swapFun_other i j x hxi hxj, swapFun_other i j x hxi hxj]

theorem fyStep_eq_comp (rng : Nat → Nat) (length i : Nat) (order : Nat → Nat) :
    fyStep rng length i order = order ∘ swapFun i (i + rng i % (length - i)) := by
  funext x
  simp only [Function.comp_apply]
  unfold fyStep
  by_cases hxi : x = i
  · rw [if_pos hxi, hxi, swapFun_left]
  · by_cases hxj : x = i + rng i % (length - i)
    · rw [if_neg hxi, if_pos hxj, hxj, swapFun_right]
    · rw [if_neg hxi, if_neg hxj, swapFun_other _ _ _ hxi hxj]

theorem fyStep_injective (rng : Nat → Nat) (length i : Nat) (order : Nat → Nat)
    (h : Function.Injective order) : Function.Injective (fyStep rng length i order) := by
  rw [fyStep_eq_comp]
  exact h.comp (swapFun_involutive i _).injective

theorem fyLoop_injective (rng : Nat → Nat) (length : Nat) :
    ∀ (k : Nat) (order : Nat → Nat), Function.Injective order →
      Function.Injective (fyLoop rng length k order) := by
  intro k
  induction k with
  | zero => intro order h; exact h
  | succ k ih =>
    intro order h
    exact fyStep_injective rng length k _ (ih order h)

theorem fyStep_lt (rng : Nat → Nat) (length i : Nat) (order : Nat → Nat)
    (hi : i < length) (h : ∀ x, x < length → order x < length) :
    ∀ x, x < length → fyStep rng length i order x < length := by
  intro x hx
  have hj : i + rng i % (length - i) < length := by
    have hpos : 0 < length - i := Nat.sub_pos_of_lt hi
    have := Nat.mod_lt (rng i) hpos
    omega
  unfold fyStep
  by_cases hxi : x = i
  · rw [if_pos hxi]
    exact h _ hj
  · by_cases hxj : x = i + rng i % (length - i)
    · rw [if_neg hxi, if_pos hxj]
      exact h _ hi
    · rw [if_neg hxi, if_neg hxj]
      exact h _ hx

theorem fyLoop_lt (rng : Nat → Nat) (length : Nat) :
    ∀ (k : Nat) (order : Nat → Nat), k ≤ length →
      (∀ x, x < length → order x < length) →
      ∀ x, x < length → fyLoop rng length k order x < length := by
  intro k
  induction k with
  | zero => intro order _ h; exact h
  | succ k ih =>
    intro order hk h
    exact fyStep_lt rng length k _ (by omega) (ih order (by omega) h)

/-- The dense branch's returned list: distinct, in range, of length exactly
`numIndexes` whenever `numIndexes ≤ length`. -/
theorem dense_spec (rng : Nat → Nat) (length k : Nat) (hk : k ≤ length) :
    let l := ((List.range length).map (fyLoop rng length k (fun i => i))).take k
    l.length = k ∧ l.Nodup ∧ ∀ x ∈ l, x < length := by
  intro l
  have hinj : Function.Injective (fyLoop rng length k (fun i => i)) :=
    fyLoop_injective rng length k _ (fun _ _ h => h)
  have hlt : ∀ x, x < length → fyLoop rng length k (fun i => i) x < length :=
    fyLoop_lt rng length k _ hk (fun _ hx => hx)
  refine ⟨?_, ?_, ?_⟩
  · simp [l, List.length_take, List.length_map, List.length_range]
    omega
  · exact (List.take_sublist k _).nodup ((List.nodup_range length).map hinj)
  · intro x hx
    have hx' := List.mem_of_mem_take hx
    rcases List.mem_map.mp hx' with ⟨y, hy, rfl⟩
    exact hlt y (List.mem_range.mp hy)

theorem setAdd_nodup (result : List Nat) (x : Nat) (h : result.Nodup) :
    (setAdd result x).Nodup := by
  unfold setAdd
  by_cases hx : x ∈ result
  · simp [hx, h]
  · simp [hx, List.nodup_append, h]

theorem setAdd_length_le (result : List Nat) (x : Nat) :
    (setAdd result x).length ≤ result.length + 1 := by
  unfold setAdd
  by_cases hx : x ∈ result <;> simp [hx]

theorem setAdd_mem (result : List Nat) (x y : Nat) (hy : y ∈ setAdd result x) :
    y ∈ result ∨ y = x := by
  unfold setAdd at hy
  by_cases hx : x ∈ result
  · simp [hx] at hy; exact Or.inl hy
  · simp [hx] at hy
    rcases hy with hy | hy
    · exact Or.inl hy
    · exact Or.inr hy

/-- When the loop guard already fails, the sparse loop returns its
accumulator unchanged, for any fuel. -/
theorem sparseLoop_of_ge (rng : Nat → Nat) (length numIndexes fuel t : Nat)
    (result : List Nat) (h : ¬ result.length < numIndexes) :
    sparseLoop rng length numIndexes fuel t result = some result := by
  cases fuel <;> simp [sparseLoop, h]

/-- Any successful run of the sparse sampling loop, started from a
duplicate-free in-range accumulator no longer than the target, ends with a
duplicate-free in-range list of length exactly `numIndexes`. -/
theorem sparseLoop_spec (rng : Nat → Nat) (length numIndexes : Nat) (hlen : 0 < length) :
    ∀ (fuel t : Nat) (result l : List Nat),
      result.Nodup → (∀ x ∈ result, x < length) → result.length ≤ numIndexes →
      sparseLoop rng length numIndexes fuel t result = some l →
      l.Nodup ∧ (∀ x ∈ l, x < length) ∧ l.length = numIndexes := by
  intro fuel
  induction fuel with
  | zero =>
    intro t result l hnd hmem hle h
    by_cases hguard : result.length < numIndexes
    · simp [sparseLoop, hguard] at h
    · rw [sparseLoop_of_ge rng length numIndexes 0 t result hguard] at h
      cases h
      exact ⟨hnd, hmem, by omega⟩
  | succ fuel ih =>
    intro t result l hnd hmem hle h
    by_cases hguard : result.length < numIndexes
    · simp only [sparseLoop, if_pos hguard] at h
      refine ih (t + 1) (setAdd result (rng t % length)) l
        (setAdd_nodup _ _ hnd) ?_ ?_ h
      · intro x hx
        rcases setAdd_mem _ _ _ hx with hx | hx
        · exact hmem x hx
        · subst hx; exact Nat.mod_lt _ hlen
      · have := setAdd_length_le result (rng t % length)
        omega
    · rw [sparseLoop_of_ge rng length numIndexes (fuel + 1) t result hguard] at h
      cases h
      exact ⟨hnd, hmem, by omega⟩

/-- Every successful result of `generateRandomOrder` has exactly
`min 50 length` entries, pairwise distinct and each `< length`. -/
theorem generateRandomOrder_spec (rng : Nat → Nat) (fuel length : Nat)
    (hlen : 1 ≤ length) (l : List Nat)
    (h : generateRandomOrder rng fuel length = some l) :
    l.length = min 50 length ∧ l.Nodup ∧ ∀ x ∈ l, x < length := by
  unfold generateRandomOrder at h
  have hk : min MAX_RANDOM_LEN length ≤ length := Nat.min_le_right _ _
  by_cases hbranch : 2 * min MAX_RANDOM_LEN length > length
  · simp only [if_pos hbranch] at h
    cases h
    have := dense_spec rng length (min MAX_RANDOM_LEN length) hk
    exact ⟨this.1, this.2.1, this.2.2⟩
  · simp only [if_neg hbranch] at h
    have := sparseLoop_spec rng length (min MAX_RANDOM_LEN length) (by omega)
      fuel 0 [] l (List.nodup_nil) (by intro x hx; cases hx) (by simp) h
    exact ⟨this.2.2, this.1, this.2.1⟩

/-- C1: for every `length ≥ 1`, every sequence returned by
`generateRandomOrder(length)` consists of indices in `[0, length)`,
pairwise distinct within the call, and there are between `1` and
`min(50, length)` of them. -/
theorem generateRandomOrder_bounds (rng : Nat → Nat) (fuel length : Nat)
    (hlen : 1 ≤ length) (l : List Nat)
    (h : generateRandomOrder rng fuel length = some l) :
    (∀ x ∈ l, x < length) ∧ l.Nodup ∧ 1 ≤ l.length ∧ l.length ≤ min 50 length := by
  obtain ⟨hcard, hnd, hmem⟩ := generateRandomOrder_spec rng fuel length hlen l h
  refine ⟨hmem, hnd, ?_, le_of_eq hcard⟩
  rw [hcard]
  omega

/-- Witness for C1 at `length = 3` with the all-zero random stream:
the dense branch returns `[0, 1, 2]`. -/
theorem generateRandomOrder_bounds_witness :
    (1 ≤ 3 ∧ generateRandomOrder (fun _ => 0) 0 3 = some [0, 1, 2]) ∧
    ((∀ x ∈ [0, 1, 2], x < 3) ∧ List.Nodup [0, 1, 2] ∧
      1 ≤ List.length [0, 1, 2] ∧ List.length [0, 1, 2] ≤ min 50 3) :=
  ⟨⟨by decide, by decide⟩,
    generateRandomOrder_bounds (fun _ => 0) 0 3 (by decide) [0, 1, 2] (by decide)⟩

/-- C10: for every `length ≥ 1`, `generateRandomOrder(length)` returns
exactly `min(50, length)` elements. -/
theorem generateRandomOrder_length (rng : Nat → Nat) (fuel length : Nat)
    (hlen : 1 ≤ length) (l : List Nat)
    (h : generateRandomOrder rng fuel length = some l) :
    l.length = min 50 length :=
  (generateRandomOrder_spec rng fuel length hlen l h).1

/-- Witness for C10 at `length = 100` with the identity random stream:
the sparse branch collects `[0, …, 49]` using 50 units of fuel. -/
theorem generateRandomOrder_length_witness :
    (1 ≤ 100 ∧ generateRandomOrder (fun t => t) 50 100 = some (List.range 50)) ∧
    (List.range 50).length = min 50 100 :=
  ⟨⟨by decide, by decide⟩,
    generateRandomOrder_length (fun t => t) 50 100 (by decide) (List.range 50) (by decide)⟩

/-- C8 counterexample: called with `length = 0`, `generateRandomOrder` does
not fail — both branch guards degenerate and it returns the empty sequence. -/
theorem generateRandomOrder_zero_counterexample :
    generateRandomOrder (fun _ => 0) 0 0 = some [] := by decide

/-- C8 amended: for `length = 0`, `generateRandomOrder` returns the empty
sequence (for any random stream and any fuel) instead of failing: the dense
test `0 > 0/2` is false and the sparse loop's guard `0 < 0` fails at once. -/
theorem generateRandomOrder_zero (rng : Nat → Nat) (fuel : Nat) :
    generateRandomOrder rng fuel 0 = some [] := by
  unfold generateRandomOrder
  simp only [Nat.min_zero, Nat.mul_zero, gt_iff_lt, Nat.lt_irrefl, if_false]
  exact sparseLoop_of_ge rng 0 0 fuel 0 [] (by simp)

/-!
The navigation / clock state of the `Practice` component (source lines
32–40): `imageOrder`, `orderIndex`, `counter`, and the flags `pause` and
`mute`.  A handler invocation (or one interval callback) is embedded as a
function on this state; the React setter calls inside one handler are
batched, so their net effect within one event is a single state update.
-/

structure PracticeState where
  imageOrder : List Nat
  orderIndex : Nat
  counter : Nat
  pause : Bool
  mute : Bool
deriving DecidableEq

/-- Source lines 48–59, `next()`.  The comparison
`orderIndex === imageOrder.length - 1` is over JS numbers, hence embedded
over `Int` (for an empty order its right-hand side is `-1`).  When the order
is exhausted it is extended with `generateRandomOrder(imageFiles.length)`
(`numFiles` here) and the index moves into the appended chunk; otherwise
only the index moves.  Both paths end with `setCounter(0)`.  The result is
`Option` only because the embedded generator is fuelled. -/
def next (rng : Nat → Nat) (fuel numFiles : Nat) (s : PracticeState) : Option PracticeState :=
  if (s.orderIndex : Int) = (s.imageOrder.length : Int) - 1 then
    match generateRandomOrder rng fuel numFiles with
    | none => none
    | some chunk =>
      some { s with imageOrder := s.imageOrder ++ chunk, orderIndex := s.orderIndex + 1,
                    counter := 0 }
  else
    some { s with orderIndex := s.orderIndex + 1, counter := 0 }

/-- Source lines 62–68, `prev()`: at index 0 it returns without touching any
state; otherwise it decrements the index and zeroes the counter. -/
def prev (s : PracticeState) : PracticeState :=
  if s.orderIndex = 0 then s
  else { s with orderIndex := s.orderIndex - 1, counter := 0 }

/-- Source line 107, the Space branch of `handleKeyPress`:
`setPause(!pause)`. -/
def togglePause (s : PracticeState) : PracticeState :=
  { s with pause := !s.pause }

/-- Source line 40: `TICKS_PER_SLIDE = timeMS / INTERVAL_MS` (exact for the
session durations offered, all multiples of 10ms). -/
def ticksPerSlide (timeMS : Nat) : Nat := timeMS / INTERVAL_MS

/-- One 10ms interval period (source lines 85–96).  While `pause` holds no
interval is installed, so a period elapses without any callback: the state
is unchanged.  Otherwise the callback runs
`setCounter(prev => prev >= TICKS_PER_SLIDE ? (next(), 0) : prev + 1)`:
at or beyond the threshold it calls `next()` (which zeroes the counter, as
does the callback's own return value); below it, the counter increments. -/
def tick (rng : Nat → Nat) (fuel numFiles T : Nat) (s : PracticeState) : Option PracticeState :=
  if s.pause then some s
  else if T ≤ s.counter then next rng fuel numFiles s
  else some { s with counter := s.counter + 1 }

/-- Runs `n` consecutive interval periods. -/
def tickN (rng : Nat → Nat) (fuel numFiles T : Nat) : Nat → PracticeState → Option PracticeState
  | 0, s => some s
  | n + 1, s => (tick rng fuel numFiles T s).bind (tickN rng fuel numFiles T n)

/-- C2: `next` at the last index of the order appends a freshly generated
chunk and moves the index into the appended region; at any other index it
only increments the index; both branches zero the counter and leave the
flags untouched. -/
theorem next_spec (rng : Nat → Nat) (fuel numFiles : Nat) (hN : 1 ≤ numFiles)
    (s s' : PracticeState) (h : next rng fuel numFiles s = some s') :
    s'.counter = 0 ∧ s'.orderIndex = s.orderIndex + 1 ∧
    s'.pause = s.pause ∧ s'.mute = s.mute ∧
    (((s.orderIndex : Int) = (s.imageOrder.length : Int) - 1) →
      ∃ chunk, generateRandomOrder rng fuel numFiles = some chunk ∧
        s'.imageOrder = s.imageOrder ++ chunk ∧
        s.imageOrder.length ≤ s'.orderIndex ∧
        s'.orderIndex < s'.imageOrder.length) ∧
    (((s.orderIndex : Int) ≠ (s.imageOrder.length : Int) - 1) →
      s'.imageOrder = s.imageOrder) := by
  unfold next at h
  by_cases hend : (s.orderIndex : Int) = (s.imageOrder.length : Int) - 1
  · rw [if_pos hend] at h
    cases hgen : generateRandomOrder rng fuel numFiles with
    | none => rw [hgen] at h; cases h
    | some chunk =>
      rw [hgen] at h
      cases h
      have hlen : s.orderIndex + 1 = s.imageOrder.length := by omega
      have hchunk : chunk.length = min 50 numFiles :=
        generateRandomOrder_length rng fuel numFiles hN chunk hgen
      refine ⟨rfl, rfl, rfl, rfl, fun _ => ⟨chunk, rfl, rfl, ?_, ?_⟩, fun hne => absurd hend hne⟩
      · simp only
        omega
      · simp only [List.length_append]
        omega
  · rw [if_neg hend] at h
    cases h
    exact ⟨rfl, rfl, rfl, rfl, fun hc => absurd hc hend, fun _ => rfl⟩

/-- Witness for C2: a one-image session at the end of its order; the
appended chunk is `[0]` and the index moves to 1, inside the new order
`[0, 0]`. -/
theorem next_spec_witness :
    (1 ≤ 1 ∧
      next (fun _ => 0) 0 1 ⟨[0], 0, 7, false, false⟩ = some ⟨[0, 0], 1, 0, false, false⟩) ∧
    ((⟨[0, 0], 1, 0, false, false⟩ : PracticeState).counter = 0 ∧
      (⟨[0, 0], 1, 0, false, false⟩ : PracticeState).orderIndex =
        (⟨[0], 0, 7, false, false⟩ : PracticeState).orderIndex + 1 ∧
      (⟨[0, 0], 1, 0, false, false⟩ : PracticeState).pause =
        (⟨[0], 0, 7, false, false⟩ : PracticeState).pause ∧
      (⟨[0, 0], 1, 0, false, false⟩ : PracticeState).mute =
        (⟨[0], 0, 7, false, false⟩ : PracticeState).mute ∧
      ((((⟨[0], 0, 7, false, false⟩ : PracticeState).orderIndex : Int) =
          ((⟨[0], 0, 7, false, false⟩ : PracticeState).imageOrder.length : Int) - 1) →
        ∃ chunk, generateRandomOrder (fun _ => 0) 0 1 = some chunk ∧
          (⟨[0, 0], 1, 0, false, false⟩ : PracticeState).imageOrder =
            (⟨[0], 0, 7, false, false⟩ : PracticeState).imageOrder ++ chunk ∧
          (⟨[0], 0, 7, false, false⟩ : PracticeState).imageOrder.length ≤
            (⟨[0, 0], 1, 0, false, false⟩ : PracticeState).orderIndex ∧
          (⟨[0, 0], 1, 0, false, false⟩ : PracticeState).orderIndex <
            (⟨[0, 0], 1, 0, false, false⟩ : PracticeState).imageOrder.length) ∧
      ((((⟨[0], 0, 7, false, false⟩ : PracticeState).orderIndex : Int) ≠
          ((⟨[0], 0, 7, false, false⟩ : PracticeState).imageOrder.length : Int) - 1) →
        (⟨[0, 0], 1, 0, false, false⟩ : PracticeState).imageOrder =
          (⟨[0], 0, 7, false, false⟩ : PracticeState).imageOrder)) :=
  ⟨⟨by decide, by decide⟩,
    next_spec (fun _ => 0) 0 1 (by decide) ⟨[0], 0, 7, false, false⟩
      ⟨[0, 0], 1, 0, false, false⟩ (by decide)⟩

/-- C4: `prev` at index 0 changes nothing at all; at a positive index it
decrements the index, zeroes the counter, and touches nothing else. -/
theorem prev_spec (s : PracticeState) :
    (s.orderIndex = 0 → prev s = s) ∧
    (0 < s.orderIndex →
      (prev s).orderIndex = s.orderIndex - 1 ∧ (prev s).counter = 0 ∧
      (prev s).imageOrder = s.imageOrder ∧ (prev s).pause = s.pause ∧
      (prev s).mute = s.mute) := by
  constructor
  · intro h0
    unfold prev
    rw [if_pos h0]
  · intro hpos
    unfold prev
    rw [if_neg (by omega)]
    exact ⟨rfl, rfl, rfl, rfl, rfl⟩

/-- Witness for C4 at index 0 (full no-op, counter kept at 9) and at
index 2 (decrement plus counter reset). -/
theorem prev_spec_witness :
    (prev ⟨[0, 1, 2], 0, 9, false, false⟩ = ⟨[0, 1, 2], 0, 9, false, false⟩) ∧
    ((prev ⟨[0, 1, 2], 2, 9, false, false⟩).orderIndex = 2 - 1 ∧
      (prev ⟨[0, 1, 2], 2, 9, false, false⟩).counter = 0 ∧
      (prev ⟨[0, 1, 2], 2, 9, false, false⟩).imageOrder = [0, 1, 2] ∧
      (prev ⟨[0, 1, 2], 2, 9, false, false⟩).pause = false ∧
      (prev ⟨[0, 1, 2], 2, 9, false, false⟩).mute = false) :=
  ⟨(prev_spec ⟨[0, 1, 2], 0, 9, false, false⟩).1 (by decide),
    (prev_spec ⟨[0, 1, 2], 2, 9, false, false⟩).2 (by decide)⟩

/-- A paused state absorbs any number of interval periods unchanged. -/
theorem tickN_paused (rng : Nat → Nat) (fuel numFiles T : Nat) (s : PracticeState)
    (hp : s.pause = true) : ∀ n, tickN rng fuel numFiles T n s = some s := by
  intro n
  induction n with
  | zero => rfl
  | succ n ih =>
    unfold tickN tick
    rw [hp]
    simpa using ih

/-- C7: `togglePause` flips only the `pause` flag — order, index, counter
and `mute` are untouched — and while `pause` holds, any number of elapsed
interval periods leaves the whole state (in particular the counter)
unchanged. -/
theorem togglePause_spec (rng : Nat → Nat) (fuel numFiles T : Nat) (s : PracticeState) :
    (togglePause s).pause = !s.pause ∧
    (togglePause s).orderIndex = s.orderIndex ∧
    (togglePause s).counter = s.counter ∧
    (togglePause s).imageOrder = s.imageOrder ∧
    (togglePause s).mute = s.mute ∧
    (s.pause = true → ∀ n, tickN rng fuel numFiles T n s = some s) :=
  ⟨rfl, rfl, rfl, rfl, rfl, fun hp => tickN_paused rng fuel numFiles T s hp⟩

/-- Witness for C7: paused at counter 500; 1000 further interval periods
leave the counter at 500, and toggling unpauses without touching it. -/
theorem togglePause_spec_witness :
    ((togglePause ⟨[0, 1, 2], 0, 500, true, false⟩).pause = !true ∧
      (togglePause ⟨[0, 1, 2], 0, 500, true, false⟩).counter = 500) ∧
    tickN (fun _ => 0) 0 3 3000 1000 ⟨[0, 1, 2], 0, 500, true, false⟩ =
      some ⟨[0, 1, 2], 0, 500, true, false⟩ :=
  ⟨⟨(togglePause_spec (fun _ => 0) 0 3 3000 ⟨[0, 1, 2], 0, 500, true, false⟩).1,
      (togglePause_spec (fun _ => 0) 0 3 3000 ⟨[0, 1, 2], 0, 500, true, false⟩).2.2.1⟩,
    (togglePause_spec (fun _ => 0) 0 3 3000 ⟨[0, 1, 2], 0, 500, true, false⟩).2.2.2.2.2
      rfl 1000⟩

/-- Splitting a run of interval periods. -/
theorem tickN_add (rng : Nat → Nat) (fuel numFiles T a : Nat) :
    ∀ (b : Nat) (s : PracticeState),
      tickN rng fuel numFiles T (a + b) s =
        (tickN rng fuel numFiles T a s).bind (tickN rng fuel numFiles T b) := by
  induction a with
  | zero =>
    intro b s
    rw [Nat.zero_add]
    rfl
  | succ a ih =>
    intro b s
    have h1 : a + 1 + b = (a + b) + 1 := by omega
    rw [h1]
    show (tick rng fuel numFiles T s).bind (tickN rng fuel numFiles T (a + b)) =
      ((tick rng fuel numFiles T s).bind (tickN rng fuel numFiles T a)).bind
        (tickN rng fuel numFiles T b)
    rw [Option.bind_assoc]
    cases tick rng fuel numFiles T s with
    | none => rfl
    | some s' => exact ih b s'

/-- Below the threshold, each unpaused interval period adds exactly one to
the counter and changes nothing else. -/
theorem tickN_inc (rng : Nat → Nat) (fuel numFiles T : Nat) :
    ∀ (n : Nat) (s : PracticeState), s.pause = false → s.counter + n ≤ T →
      tickN rng fuel numFiles T n s = some { s with counter := s.counter + n } := by
  intro n
  induction n with
  | zero => intro s _ _; rfl
  | succ n ih =>
    intro s hp hle
    have hstep : tick rng fuel numFiles T s = some { s with counter := s.counter + 1 } := by
      unfold tick
      rw [if_neg (by simp [hp] : ¬ s.pause = true), if_neg (by omega : ¬ T ≤ s.counter)]
    show (tick rng fuel numFiles T s).bind (tickN rng fuel numFiles T n) = _
    rw [hstep]
    show tickN rng fuel numFiles T n { s with counter := s.counter + 1 } = _
    have h2 : ({ s with counter := s.counter + 1 } : PracticeState).counter + n ≤ T := by
      simp only
      omega
    rw [ih { s with counter := s.counter + 1 } hp h2]
    have harith : s.counter + 1 + n = s.counter + (n + 1) := by omega
    dsimp only
    rw [harith]

/-- Whenever `next` succeeds, it moves the index forward by one and zeroes
the counter — in both of its branches. -/
theorem next_advances (rng : Nat → Nat) (fuel numFiles : Nat) (s s' : PracticeState)
    (h : next rng fuel numFiles s = some s') :
    s'.orderIndex = s.orderIndex + 1 ∧ s'.counter = 0 := by
  unfold next at h
  by_cases hend : (s.orderIndex : Int) = (s.imageOrder.length : Int) - 1
  · rw [if_pos hend] at h
    cases hgen : generateRandomOrder rng fuel numFiles with
    | none => rw [hgen] at h; cases h
    | some chunk => rw [hgen] at h; cases h; exact ⟨rfl, rfl⟩
  · rw [if_neg hend] at h
    cases h
    exact ⟨rfl, rfl⟩

/-- C3 (amended): on each unpaused interval period, a counter at or beyond
`TICKS_PER_SLIDE` triggers `next` (which zeroes the counter), and a counter
below it increments by one.  Consequently, starting from `TickCounter = 0`,
the position advances by one and the counter returns to 0 after exactly
`TICKS_PER_SLIDE + 1` periods — 3001 ticks for `slideDurationMs = 30000`,
`tickIntervalMs = 10` — not after 3000 as the claim's scenario states. -/
theorem tick_spec (rng : Nat → Nat) (fuel numFiles T : Nat) (s : PracticeState)
    (hp : s.pause = false) :
    (T ≤ s.counter → tick rng fuel numFiles T s = next rng fuel numFiles s) ∧
    (s.counter < T → tick rng fuel numFiles T s = some { s with counter := s.counter + 1 }) ∧
    (s.counter = 0 → ∀ s', tickN rng fuel numFiles T (T + 1) s = some s' →
      s'.orderIndex = s.orderIndex + 1 ∧ s'.counter = 0) := by
  refine ⟨?_, ?_, ?_⟩
  · intro hge
    unfold tick
    rw [if_neg (by simp [hp] : ¬ s.pause = true), if_pos hge]
  · intro hlt
    unfold tick
    rw [if_neg (by simp [hp] : ¬ s.pause = true), if_neg (by omega : ¬ T ≤ s.counter)]
  · intro h0 s' h
    rw [tickN_add rng fuel numFiles T T 1 s] at h
    rw [tickN_inc rng fuel numFiles T T s hp (by omega)] at h
    have hcnt : ({ s with counter := s.counter + T } : PracticeState).counter = T := by
      simp only
      omega
    change tickN rng fuel numFiles T 1 { s with counter := s.counter + T } = some s' at h
    show _ ∧ _
    have hone : tickN rng fuel numFiles T 1 { s with counter := s.counter + T } =
        next rng fuel numFiles { s with counter := s.counter + T } := by
      show (tick rng fuel numFiles T _).bind (tickN rng fuel numFiles T 0) = _
      rw [show tick rng fuel numFiles T { s with counter := s.counter + T } =
            next rng fuel numFiles { s with counter := s.counter + T } by
          unfold tick
          rw [if_neg (by simp [hp] : ¬ ({ s with counter := s.counter + T } :
                PracticeState).pause = true),
            if_pos hcnt.ge]]
      cases next rng fuel numFiles { s with counter := s.counter + T } <;> rfl
    rw [hone] at h
    exact next_advances rng fuel numFiles _ s' h

/-- C3 counterexample: in the claim's scenario (`TICKS_PER_SLIDE =
30000 / 10 = 3000`, three images, no manual navigation), after exactly
3000 ticks from `TickCounter = 0` the position has NOT advanced (still 0)
and the counter sits at 3000, not 0; the advance happens only on tick
3001. -/
theorem tick_after_3000_counterexample :
    tickN (fun _ => 0) 0 3 (ticksPerSlide 30000) 3000 ⟨[0, 1, 2], 0, 0, false, false⟩ =
      some ⟨[0, 1, 2], 0, 3000, false, false⟩ := by
  have h := tickN_inc (fun _ => 0) 0 3 (ticksPerSlide 30000) 3000
    ⟨[0, 1, 2], 0, 0, false, false⟩ rfl (by decide)
  exact h

/-- Witness for the amended C3, with `TICKS_PER_SLIDE = 2` to keep the run
concrete: from counter 0 the position advances by one (0 → 1) and the
counter is back at 0 after exactly 3 = `TICKS_PER_SLIDE + 1` periods. -/
theorem tick_spec_witness :
    ((⟨[0, 1, 2], 0, 0, false, false⟩ : PracticeState).pause = false ∧
      (⟨[0, 1, 2], 0, 0, false, false⟩ : PracticeState).counter = 0 ∧
      tickN (fun _ => 0) 0 3 2 (2 + 1) ⟨[0, 1, 2], 0, 0, false, false⟩ =
        some ⟨[0, 1, 2], 1, 0, false, false⟩) ∧
    ((⟨[0, 1, 2], 1, 0, false, false⟩ : PracticeState).orderIndex =
        (⟨[0, 1, 2], 0, 0, false, false⟩ : PracticeState).orderIndex + 1 ∧
      (⟨[0, 1, 2], 1, 0, false, false⟩ : PracticeState).counter = 0) :=
  ⟨⟨rfl, rfl, by decide⟩,
    (tick_spec (fun _ => 0) 0 3 2 ⟨[0, 1, 2], 0, 0, false, false⟩ rfl).2.2 rfl
      ⟨[0, 1, 2], 1, 0, false, false⟩ (by decide)⟩

/-!
Resource / listener / timer lifecycle of the `Practice` component, per
React effect semantics:

* On mount, the `useState` initializer (source line 34) runs
  `URL.createObjectURL(imageFiles[orderIndex])` once, then the effect of
  lines 77–119 runs: it creates another object URL, stores it in
  `currentImageUrl`, installs the interval timer (unless paused) and the
  `keydown` listener.
* When a dependency (`orderIndex` or `pause`) changes, React first runs
  the previous effect's cleanup (lines 114–118): revoke that effect's URL,
  clear the timer, remove the listener — then re-runs the effect body.
* On unmount, only the cleanup runs.

Object URLs are embedded as consecutive ids drawn from `nextId`; `created`
and `revoked` record each `URL.createObjectURL` / `URL.revokeObjectURL`
call in order.  A URL is live iff created and not revoked.
-/

structure LifecycleState where
  nextId : Nat
  created : List Nat
  revoked : List Nat
  currentUrl : Nat
  timerOn : Bool
  listenerOn : Bool
deriving DecidableEq

/-- The object URLs currently live: created and never revoked. -/
def liveList (s : LifecycleState) : List Nat :=
  s.created.filter (fun u => decide (u ∉ s.revoked))

def liveCount (s : LifecycleState) : Nat := (liveList s).length

/-- Source line 34: the `useState` initializer creates the first object URL
(id 0) during the initial render; no timer or listener exists yet. -/
def mountInit : LifecycleState :=
  { nextId := 1, created := [0], revoked := [], currentUrl := 0,
    timerOn := false, listenerOn := false }

/-- The effect body, source lines 77–112: create a fresh object URL, make it
current, install the interval (iff not paused) and the keydown listener. -/
def effectRun (pause : Bool) (s : LifecycleState) : LifecycleState :=
  { nextId := s.nextId + 1, created := s.created ++ [s.nextId], revoked := s.revoked,
    currentUrl := s.nextId, timerOn := !pause, listenerOn := true }

/-- The effect cleanup, source lines 114–118: revoke the effect's URL (the
current one), clear the interval, remove the keydown listener. -/
def effectCleanup (s : LifecycleState) : LifecycleState :=
  { s with revoked := s.revoked ++ [s.currentUrl], timerOn := false, listenerOn := false }

/-- The initial mount settling: initial render, then the first effect run
(the slideshow starts unpaused). -/
def mountSettle : LifecycleState := effectRun false mountInit

/-- A dependency change (`orderIndex` or `pause`): previous cleanup, then a
fresh effect run. -/
def depsChange (pause : Bool) (s : LifecycleState) : LifecycleState :=
  effectRun pause (effectCleanup s)

/-- Any observation point of a session after the initial mount settles:
the state after the mount and an arbitrary sequence of dependency changes
(each entry gives the `pause` value then in force). -/
def runSession (evs : List Bool) : LifecycleState :=
  evs.foldl (fun s p => depsChange p s) mountSettle

/-- Session invariant: ids are fresh, the current URL is a live one, and
exactly two URLs are live — the leaked initializer URL `0` and the current
effect URL. -/
def Inv (s : LifecycleState) : Prop :=
  0 < s.currentUrl ∧ s.currentUrl < s.nextId ∧
  (∀ u ∈ s.created, u < s.nextId) ∧ (∀ u ∈ s.revoked, u < s.nextId) ∧
  s.created.Nodup ∧ s.currentUrl ∈ s.created ∧ s.currentUrl ∉ s.revoked ∧
  liveList s = [0, s.currentUrl] ∧ s.listenerOn = true

theorem Inv_mountSettle : Inv mountSettle := by
  unfold Inv
  decide

theorem filter_notmem_append (l rev : List Nat) (c : Nat) :
    l.filter (fun u => decide (u ∉ rev ++ [c])) =
      (l.filter (fun u => decide (u ∉ rev))).filter (fun u => decide (u ≠ c)) := by
  rw [List.filter_filter]
  apply List.filter_congr
  intro a _
  simp [List.mem_append, not_or, Bool.and_comm]

theorem Inv_depsChange (p : Bool) (s : LifecycleState) (h : Inv s) :
    Inv (depsChange p s) := by
  obtain ⟨hc0, hcn, hcreated, hrevoked, hnd, hmemc, hnotrev, hlive, -⟩ := h
  have hnfresh : s.nextId ∉ s.created := fun hmem => absurd (hcreated _ hmem) (by omega)
  have hnnotrev : s.nextId ∉ s.revoked ++ [s.currentUrl] := by
    intro hmem
    rcases List.mem_append.mp hmem with hmem | hmem
    · exact absurd (hrevoked _ hmem) (by omega)
    · rw [List.mem_singleton] at hmem
      omega
  unfold Inv depsChange effectRun effectCleanup liveList
  dsimp only
  refine ⟨by omega, by omega, ?_, ?_, ?_, ?_, ?_, ?_, rfl⟩
  · intro u hu
    rcases List.mem_append.mp hu with hu | hu
    · exact Nat.lt_succ_of_lt (hcreated _ hu)
    · rw [List.mem_singleton] at hu
      omega
  · intro u hu
    rcases List.mem_append.mp hu with hu | hu
    · exact Nat.lt_succ_of_lt (hrevoked _ hu)
    · rw [List.mem_singleton] at hu
      omega
  · exact List.Nodup.append hnd (List.nodup_singleton _) (by
      intro u hu hu'
      rw [List.mem_singleton] at hu'
      subst hu'
      exact hnfresh hu)
  · exact List.mem_append.mpr (Or.inr (List.mem_singleton.mpr rfl))
  · exact hnnotrev
  · rw [List.filter_append, filter_notmem_append]
    have h1 : s.created.filter (fun u => decide (u ∉ s.revoked)) = [0, s.currentUrl] := hlive
    rw [h1]
    have h0c : (0 : Nat) ≠ s.currentUrl := by omega
    have h2 : ([0, s.currentUrl].filter (fun u => decide (u ≠ s.currentUrl))) = [0] := by
      simp [h0c]
    rw [h2]
    have hnr1 : s.nextId ∉ s.revoked := fun hmem => absurd (hrevoked _ hmem) (by omega)
    have hnr2 : ¬ s.nextId = s.currentUrl := by omega
    have h3 : ([s.nextId].filter (fun u => decide (u ∉ s.revoked ++ [s.currentUrl]))) =
        [s.nextId] := by
      simp [hnr1, hnr2]
    rw [h3]
    rfl

/-- Every observable state of a session satisfies the invariant. -/
theorem Inv_runSession (evs : List Bool) : Inv (runSession evs) := by
  unfold runSession
  have : ∀ (l : List Bool) (s : LifecycleState), Inv s →
      Inv (l.foldl (fun s p => depsChange p s) s) := by
    intro l
    induction l with
    | nil => intro s h; exact h
    | cons p l ih =>
      intro s h
      exact ih _ (Inv_depsChange p s h)
  exact this evs mountSettle Inv_mountSettle

/-- C5 refutation: at every observation point after the initial mount
settles, exactly two object URLs are live — the URL created by the
`useState` initializer (line 34) is never revoked, and the current effect's
URL is live beside it — so "at most one DisplayResource live" fails. -/
theorem liveCount_runSession (evs : List Bool) :
    liveCount (runSession evs) = 2 ∧ ¬ liveCount (runSession evs) ≤ 1 := by
  have h := (Inv_runSession evs).2.2.2.2.2.2.2.1
  unfold liveCount
  rw [h]
  exact ⟨rfl, by simp⟩

/-- C6: unmounting (running the effect cleanup) from any observable session
state clears the timer, removes the keydown listener (which was installed),
and revokes the current DisplayResource — live until that moment — exactly
once, leaving it dead. -/
theorem unmount_spec (evs : List Bool) :
    (effectCleanup (runSession evs)).timerOn = false ∧
    (effectCleanup (runSession evs)).listenerOn = false ∧
    (runSession evs).listenerOn = true ∧
    (runSession evs).currentUrl ∈ liveList (runSession evs) ∧
    List.count (runSession evs).currentUrl (effectCleanup (runSession evs)).revoked = 1 ∧
    (runSession evs).currentUrl ∉ liveList (effectCleanup (runSession evs)) := by
  obtain ⟨hc0, hcn, hcreated, hrevoked, hnd, hmemc, hnotrev, hlive, hlisten⟩ :=
    Inv_runSession evs
  refine ⟨rfl, rfl, hlisten, ?_, ?_, ?_⟩
  · rw [hlive]
    simp
  · show List.count _ ((runSession evs).revoked ++ [(runSession evs).currentUrl]) = 1
    rw [List.count_append, List.count_eq_zero_of_not_mem hnotrev]
    simp
  · intro hmem
    unfold liveList at hmem
    have := (List.mem_filter.mp hmem).2
    rw [decide_eq_true_eq] at this
    apply this
    show _ ∈ (runSession evs).revoked ++ [(runSession evs).currentUrl]
    exact List.mem_append.mpr (Or.inr (List.mem_singleton.mpr rfl))

/-!
`resizeWindow` (source lines 232–263).  The host-window readings
(`window.innerWidth/innerHeight`, `outerWidth/outerHeight`,
`screenX/screenY`) are the fields of `WindowEnv`; the image's intrinsic
size and the bounds are arguments.  JS numbers are embedded as `ℚ`: every
quantity in the claim's properties (and in the counterexample below) is
exact, so no floating-point rounding is involved.
-/

structure WindowEnv where
  innerWidth : ℚ
  innerHeight : ℚ
  outerWidth : ℚ
  outerHeight : ℚ
  screenX : ℚ
  screenY : ℚ
deriving DecidableEq

/-- The resize/move request issued to the host:
`window.resizeTo(width, height)` and `window.moveTo(left, top)`. -/
structure ResizeRequest where
  width : ℚ
  height : ℚ
  left : ℚ
  top : ℚ
deriving DecidableEq

/-- Source lines 236–261, the `onload` body of `resizeWindow`: scale factor
`min(maxWidth/width, maxHeight/height)`, scaled dimensions, chrome overhead
`outer − inner` added, then the move
`newLeft = screenX - (adjustedWidth - innerWidth) / 2` (and likewise for
the top) before `resizeTo`/`moveTo`. -/
def resizeWindow (w h maxWidth maxHeight : ℚ) (env : WindowEnv) : ResizeRequest :=
  let scaleWidth := maxWidth / w
  let scaleHeight := maxHeight / h
  let scaleFactor := min scaleWidth scaleHeight
  let newWidth := w * scaleFactor
  let newHeight := h * scaleFactor
  let browserUIWidth := env.outerWidth - env.innerWidth
  let browserUIHeight := env.outerHeight - env.innerHeight
  let adjustedWidth := newWidth + browserUIWidth
  let adjustedHeight := newHeight + browserUIHeight
  let newLeft := env.screenX - (adjustedWidth - env.innerWidth) / 2
  let newTop := env.screenY - (adjustedHeight - env.innerHeight) / 2
  { width := adjustedWidth, height := adjustedHeight, left := newLeft, top := newTop }

/-- The failing environment for C9: a 100×100 viewport inside a 120×140
outer window at (500, 300). -/
def envBug : WindowEnv :=
  { innerWidth := 100, innerHeight := 100, outerWidth := 120, outerHeight := 140,
    screenX := 500, screenY := 300 }

/-- C9: at the failing input (a 100×100 image fit into 100×100 bounds in
`envBug`), the scale factor and chrome-overhead parts behave as claimed —
the request is 120×140 at (490, 280) — but the reposition is NOT centered
around the window's current center point: the new center lands at
(550, 350) while the current center is (560, 370).  The code offsets the
move by half the *inner* size where a centered resize needs half the
*outer* size, contradicting its own comment "Move the window so the resize
is centered". -/
theorem resizeWindow_not_centered :
    resizeWindow 100 100 100 100 envBug =
      { width := 120, height := 140, left := 490, top := 280 } ∧
    (resizeWindow 100 100 100 100 envBug).width =
      100 * min ((100 : ℚ) / 100) ((100 : ℚ) / 100) + (envBug.outerWidth - envBug.innerWidth) ∧
    (resizeWindow 100 100 100 100 envBug).left +
        (resizeWindow 100 100 100 100 envBug).width / 2 ≠
      envBug.screenX + envBug.outerWidth / 2 ∧
    (resizeWindow 100 100 100 100 envBug).top +
        (resizeWindow 100 100 100 100 envBug).height / 2 ≠
      envBug.screenY + envBug.outerHeight / 2 := by
  refine ⟨?_, ?_, ?_, ?_⟩ <;> norm_num [resizeWindow, envBug]

end Framerate
